import Mathlib

/-!
Verification of the embedded-Dolt DSN construction layer of the beads
repository (internal/storage/dolt/embedded_dsn.go).

Go values are modelled as follows:
- Go strings are Lean Strings (valid UTF-8 assumed; byte-level operations
  go through an explicit UTF-8 encoder).
- Go url.Values (map[string][]string) is an association list with unique
  keys; the nil map is modelled as none of an Option.
- A Go *Config pointer is Option Config; dereferencing a nil pointer is
  modelled by an Option-valued result (none).
-/

namespace BeadsDolt

/-- Config: the store configuration consumed by the DSN builders.
Modelled from the spec: the Config struct itself is declared outside the
given sources; spec section 3 lists the consumed fields Path,
CommitterName, CommitterEmail and Database, all strings. -/
structure Config where
  Path : String
  CommitterName : String
  CommitterEmail : String
  Database : String
deriving DecidableEq

/-- A non-nil Go map[string][]string, as an association list.  Real Go maps
have unique keys; lemmas that need this carry a Nodup hypothesis. -/
abbrev ValuesList := List (String × List String)

/-- Go url.Values; none models the nil map. -/
abbrev Values := Option ValuesList

/-- Map lookup on the association-list model (first match). -/
def getVals : ValuesList → String → Option (List String)
  | [], _ => none
  | (k', vs) :: rest, k => if k' = k then some vs else getVals rest k

/-- Whether a key is present. -/
def hasKeyB (l : ValuesList) (k : String) : Bool :=
  (getVals l k).isSome

/-- Go map assignment m[k] = vs on the association-list model: replace the
binding if the key is present, otherwise add it. -/
def setKey : ValuesList → String → List String → ValuesList
  | [], k, vs => [(k, vs)]
  | (k', vs') :: rest, k, vs =>
      if k' = k then (k, vs) :: rest else (k', vs') :: setKey rest k vs

/-- url.Values.Set k v: sets the key to the single-element slice [v]. -/
def setOne (l : ValuesList) (k v : String) : ValuesList :=
  setKey l k [v]

/-- Lookup through the possibly-nil map (reading a nil Go map finds nothing). -/
def valuesGet (v : Values) (k : String) : Option (List String) :=
  match v with
  | none => none
  | some l => getVals l k

def valuesHasKey (v : Values) (k : String) : Bool :=
  (valuesGet v k).isSome

/-- len(v) for a Go map (0 for nil). -/
def valuesLen : Values → Nat
  | none => 0
  | some l => l.length

/-- url.Values.Set on the possibly-nil map (Set on a nil map is a Go
runtime fault, modelled as none; the sources only call Set on non-nil maps). -/
def valuesSet (v : Values) (k val : String) : Values :=
  match v with
  | none => none
  | some l => some (setOne l k val)

/-- mergeURLValues from embedded_dsn.go: a no-op when either map is nil;
otherwise dst[k] = copy(src[k]) for every key k of src (copying a slice is
the identity under value semantics).  Go iterates src in an arbitrary
order; the list order of src is used here, and the result's lookups are
proved independent of that order below. -/
def mergeURLValues (dst src : Values) : Values :=
  match dst, src with
  | none, _ => none
  | some d, none => some d
  | some d, some s => some (s.foldl (fun acc kv => setKey acc kv.1 kv.2) d)

/-- embeddedDefaultTuningParams from embedded_dsn.go. -/
def embeddedDefaultTuningParams : Values :=
  some [("nocache", ["true"]), ("failonlocktimeout", ["true"])]

/-- embeddedDefaultRetryParams from embedded_dsn.go. -/
def embeddedDefaultRetryParams : Values :=
  some [("retry", ["true"]),
        ("retrytimeout", ["2s"]),
        ("retrymaxattempts", ["200"]),
        ("retryinitialdelay", ["10ms"]),
        ("retrymaxdelay", ["100ms"])]

/-- embeddedDefaultOpenParams from embedded_dsn.go. -/
def embeddedDefaultOpenParams : Values :=
  mergeURLValues embeddedDefaultTuningParams embeddedDefaultRetryParams

/-- embeddedBaseParams from embedded_dsn.go: the identity parameters,
with a guard returning the empty map for a nil cfg. -/
def embeddedBaseParams (cfg : Option Config) : Values :=
  match cfg with
  | none => some []
  | some c =>
      let v : ValuesList := []
      let v := if c.CommitterName ≠ "" then setOne v "commitname" c.CommitterName else v
      let v := if c.CommitterEmail ≠ "" then setOne v "commitemail" c.CommitterEmail else v
      some v

/-- The UTF-8 bytes of one code point (as Nats below 256), the encoding Go
strings use. -/
def utf8Bytes (c : Char) : List Nat :=
  let n := c.toNat
  if n < 128 then [n]
  else if n < 2048 then [192 + n / 64, 128 + n % 64]
  else if n < 65536 then [224 + n / 4096, 128 + (n / 64) % 64, 128 + n % 64]
  else [240 + n / 262144, 128 + (n / 4096) % 64, 128 + (n / 64) % 64, 128 + n % 64]

/-- The byte sequence of a Go string. -/
def stringBytes (s : String) : List Nat :=
  s.data.flatMap utf8Bytes

/-- Uppercase hexadecimal digit, as in net/url percent escaping. -/
def upperHexDigit (n : Nat) : Char :=
  if n < 10 then Char.ofNat (48 + n) else Char.ofNat (55 + n)

/-- net/url.QueryEscape on one byte value (query-component rules):
unreserved bytes (alphanumeric and - . _ ~) are kept, a space becomes +,
everything else is percent-encoded. -/
def queryEscapeByteChars (b : Nat) : List Char :=
  if (65 ≤ b ∧ b ≤ 90) ∨ (97 ≤ b ∧ b ≤ 122) ∨ (48 ≤ b ∧ b ≤ 57)
      ∨ b = 45 ∨ b = 46 ∨ b = 95 ∨ b = 126 then
    [Char.ofNat b]
  else if b = 32 then ['+']
  else ['%', upperHexDigit (b / 16), upperHexDigit (b % 16)]

/-- net/url.QueryEscape. -/
def queryEscape (s : String) : String :=
  String.mk ((stringBytes s).flatMap queryEscapeByteChars)

/-- Byte-wise lexicographic order on strings (as used by Go's
sort.Strings); for valid UTF-8 this coincides with code-point order. -/
def charListLe : List Char → List Char → Bool
  | [], _ => true
  | _ :: _, [] => false
  | a :: as, b :: bs =>
      if a.toNat < b.toNat then true
      else if b.toNat < a.toNat then false
      else charListLe as bs

def keyLe (a b : String) : Bool :=
  charListLe a.data b.data

def insertByKey (p : String × List String) : ValuesList → ValuesList
  | [] => [p]
  | q :: rest => if keyLe p.1 q.1 then p :: q :: rest else q :: insertByKey p rest

/-- sort.Strings over the key set (keys are unique, so sorting the entry
list by key is equivalent). -/
def sortByKey : ValuesList → ValuesList
  | [] => []
  | p :: rest => insertByKey p (sortByKey rest)

/-- One encoded k=v pair of url.Values.Encode. -/
def encodedPair (k v : String) : String :=
  queryEscape k ++ "=" ++ queryEscape v

/-- Join with & separators (every emitted pair is non-empty, so Go's
buffer-length check is exactly an interleaving join). -/
def joinAmp : List String → String
  | [] => ""
  | [s] => s
  | s :: s2 :: rest => s ++ "&" ++ joinAmp (s2 :: rest)

/-- url.Values.Encode: keys sorted, each value emitted as k=v with
QueryEscape applied to keys and values, joined by &; nil or empty maps
encode to the empty string. -/
def valuesEncode : Values → String
  | none => ""
  | some l =>
      joinAmp ((sortByKey l).flatMap (fun kv => kv.2.map (fun v => encodedPair kv.1 v)))

/-- strings.HasPrefix (byte prefix; char-list comparison under valid UTF-8). -/
def strHasPre (pre s : String) : Bool :=
  pre.data.isPrefixOf s.data

/-- buildEmbeddedDSN from embedded_dsn.go. -/
def buildEmbeddedDSN (dir : String) (params : Values) : String :=
  let base := if strHasPre "file://" dir then dir else "file://" ++ dir
  if valuesLen params = 0 then base
  else base ++ "?" ++ valuesEncode params

/-- The spec's encoding rule for the descriptor builder (spec section 4.2),
stated as its own definition to compare against buildEmbeddedDSN: prepend
the canonical scheme prefix exactly when the directory lacks it; an empty
final parameter set yields the prefixed directory alone; otherwise append
a question mark and the standard key=value encoding, directory untouched. -/
def buildDSNSpecRule (dir : String) (params : Values) : String :=
  let prefixed := if strHasPre "file://" dir then dir else "file://" ++ dir
  match params with
  | none => prefixed
  | some [] => prefixed
  | some (p :: rest) => prefixed ++ "?" ++ valuesEncode (some (p :: rest))

/-- The parameter set of the init (container) DSN; in embeddedInitDSN this
value is computed before cfg.Path is dereferenced. -/
def embeddedInitParams (cfg : Option Config) (extra : Values) : Values :=
  mergeURLValues (embeddedBaseParams cfg) extra

/-- embeddedInitDSN from embedded_dsn.go; a nil cfg makes the Go code
dereference cfg.Path and fault, modelled as none. -/
def embeddedInitDSN (cfg : Option Config) (extra : Values) : Option String :=
  match cfg with
  | none => none
  | some c => some (buildEmbeddedDSN c.Path (embeddedInitParams cfg extra))

/-- The parameter set of the main DSN: identity parameters, then the
database selector when cfg is non-nil and cfg.Database is non-empty, then
the caller extras merged on top. -/
def embeddedDBParams (cfg : Option Config) (extra : Values) : Values :=
  let v := embeddedBaseParams cfg
  let v := match cfg with
    | some c => if c.Database ≠ "" then valuesSet v "database" c.Database else v
    | none => v
  mergeURLValues v extra

/-- embeddedDBDSN from embedded_dsn.go; a nil cfg faults at cfg.Path,
modelled as none. -/
def embeddedDBDSN (cfg : Option Config) (extra : Values) : Option String :=
  match cfg with
  | none => none
  | some c => some (buildEmbeddedDSN c.Path (embeddedDBParams cfg extra))

/-- The directory segment of a descriptor: the text between the scheme
prefix "file://" and the first '?' (or the end of the string). -/
def dirSegment (dsn : String) : String :=
  String.mk ((dsn.data.drop ("file://".length)).takeWhile (fun c => c != '?'))

/-! Lemmas about the association-list map operations. -/

theorem getVals_setKey_self (l : ValuesList) (k : String) (vs : List String) :
    getVals (setKey l k vs) k = some vs := by
  induction l with
  | nil => simp [setKey, getVals]
  | cons p rest ih =>
      obtain ⟨k1, vs1⟩ := p
      by_cases h : k1 = k
      · subst h
        simp [setKey, getVals]
      · simp [setKey, getVals, h, ih]

theorem getVals_setKey_other (l : ValuesList) (k k' : String) (vs : List String)
    (h : k' ≠ k) : getVals (setKey l k vs) k' = getVals l k' := by
  induction l with
  | nil =>
      have h' : k ≠ k' := fun hh => h hh.symm
      simp [setKey, getVals, h']
  | cons p rest ih =>
      obtain ⟨k1, vs1⟩ := p
      by_cases h1 : k1 = k
      · subst h1
        have h2 : k1 ≠ k' := fun hh => h hh.symm
        simp [setKey, getVals, h2]
      · by_cases h2 : k1 = k'
        · subst h2
          simp [setKey, getVals, h1]
        · simp [setKey, getVals, h1, h2, ih]

theorem hasKeyB_eq_false_of_not_mem (l : ValuesList) (k : String)
    (h : k ∉ l.map Prod.fst) : hasKeyB l k = false := by
  induction l with
  | nil => rfl
  | cons p rest ih =>
      obtain ⟨k1, vs1⟩ := p
      have h1 : k1 ≠ k := by
        intro hh
        exact h (by simp [hh])
      have h2 : k ∉ rest.map Prod.fst := fun hm => h (by simp [hm])
      simpa [hasKeyB, getVals, h1] using ih h2

/-- Folding the per-key overwrite of mergeURLValues over src does not touch
keys absent from src. -/
theorem getVals_foldl_not_mem (s d : ValuesList) (k : String)
    (h : hasKeyB s k = false) :
    getVals (s.foldl (fun acc kv => setKey acc kv.1 kv.2) d) k = getVals d k := by
  revert h
  induction s generalizing d with
  | nil => intro _; rfl
  | cons p rest ih =>
      obtain ⟨k1, vs1⟩ := p
      intro h
      have h1 : k1 ≠ k := by
        intro hh
        simp [hasKeyB, getVals, hh] at h
      have h2 : hasKeyB rest k = false := by
        simpa [hasKeyB, getVals, h1] using h
      rw [List.foldl_cons]
      rw [ih (setKey d k1 vs1) h2]
      exact getVals_setKey_other d k1 k vs1 (fun hh => h1 hh.symm)

/-- Characterization of the merge fold: a key of src gets src's value, any
other key keeps dst's value (src with unique keys, as in a real Go map). -/
theorem getVals_foldl_char (s d : ValuesList) (k : String)
    (hnd : (s.map Prod.fst).Nodup) :
    getVals (s.foldl (fun acc kv => setKey acc kv.1 kv.2) d) k
      = if hasKeyB s k then getVals s k else getVals d k := by
  revert hnd
  induction s generalizing d with
  | nil => intro _; rfl
  | cons p rest ih =>
      obtain ⟨k1, vs1⟩ := p
      intro hnd
      rw [List.map_cons] at hnd
      have hk1 : k1 ∉ rest.map Prod.fst := (List.nodup_cons.mp hnd).1
      have hnd' : (rest.map Prod.fst).Nodup := (List.nodup_cons.mp hnd).2
      rw [List.foldl_cons]
      by_cases hk : k1 = k
      · subst hk
        have hrest : hasKeyB rest k1 = false := hasKeyB_eq_false_of_not_mem rest k1 hk1
        rw [getVals_foldl_not_mem rest (setKey d k1 vs1) k1 hrest]
        rw [getVals_setKey_self d k1 vs1]
        simp [hasKeyB, getVals]
      · rw [ih (setKey d k1 vs1) hnd']
        rw [getVals_setKey_other d k1 k vs1 (fun hh => hk hh.symm)]
        simp [hasKeyB, getVals, hk]

/-- Lookups in a duplicate-free association list are invariant under
permutation (the enumeration order of a Go map is immaterial). -/
theorem getVals_perm (l l' : ValuesList) (hp : l.Perm l') (k : String) :
    (l.map Prod.fst).Nodup → getVals l k = getVals l' k := by
  induction hp with
  | nil => intro _; rfl
  | cons p hp ih =>
      intro hnd
      obtain ⟨k1, vs1⟩ := p
      rw [List.map_cons] at hnd
      have hnd' : _ := (List.nodup_cons.mp hnd).2
      by_cases hk : k1 = k
      · simp [getVals, hk]
      · simp [getVals, hk, ih hnd']
  | swap x y t =>
      intro hnd
      obtain ⟨kx, vx⟩ := x
      obtain ⟨ky, vy⟩ := y
      simp only [List.map_cons, List.nodup_cons, List.mem_cons] at hnd
      have hne : ky ≠ kx := fun hh => hnd.1 (Or.inl hh)
      by_cases h1 : ky = k
      · subst h1
        have h2 : kx ≠ ky := fun hh => hne hh.symm
        simp [getVals, h2]
      · by_cases h2 : kx = k <;> simp [getVals, h1, h2]
  | trans hp1 hp2 ih1 ih2 =>
      intro hnd
      rw [ih1 hnd, ih2 (((hp1.map Prod.fst).nodup_iff).mp hnd)]

theorem hasKeyB_perm (l l' : ValuesList) (hp : l.Perm l') (k : String)
    (hnd : (l.map Prod.fst).Nodup) : hasKeyB l k = hasKeyB l' k := by
  unfold hasKeyB
  rw [getVals_perm l l' hp k hnd]

/-- Claim C3: mergeURLValues copies src[k] over dst[k] for every key k of
src, unconditionally overwriting any prior value and with no error
conditions; consequently, for a key present in several merged layers the
final value is exactly the value of the last layer containing it, and the
outcome is independent of the enumeration order of the source map. -/
theorem claim_C3_merge_overwrite (dst src srcPerm later : ValuesList) (k : String)
    (hnd : (src.map Prod.fst).Nodup)
    (hndLater : (later.map Prod.fst).Nodup)
    (hperm : srcPerm.Perm src) :
    valuesGet (mergeURLValues (some dst) (some src)) k
        = (if hasKeyB src k then getVals src k else getVals dst k)
    ∧ valuesGet (mergeURLValues (some dst) (some srcPerm)) k
        = valuesGet (mergeURLValues (some dst) (some src)) k
    ∧ valuesGet (mergeURLValues (mergeURLValues (some dst) (some src)) (some later)) k
        = (if hasKeyB later k then getVals later k
           else if hasKeyB src k then getVals src k else getVals dst k) := by
  refine ⟨getVals_foldl_char src dst k hnd, ?_, ?_⟩
  · show getVals (srcPerm.foldl (fun acc kv => setKey acc kv.1 kv.2) dst) k
        = getVals (src.foldl (fun acc kv => setKey acc kv.1 kv.2) dst) k
    have hndP : (srcPerm.map Prod.fst).Nodup := ((hperm.map Prod.fst).nodup_iff).mpr hnd
    rw [getVals_foldl_char srcPerm dst k hndP, getVals_foldl_char src dst k hnd,
        getVals_perm srcPerm src hperm k hndP, hasKeyB_perm srcPerm src hperm k hndP]
  · show getVals (later.foldl (fun acc kv => setKey acc kv.1 kv.2)
        (src.foldl (fun acc kv => setKey acc kv.1 kv.2) dst)) k = _
    rw [getVals_foldl_char later _ k hndLater, getVals_foldl_char src dst k hnd]

/-- Claim C3, witnessed on concrete maps: dst has keys a and b, src has b
and c, srcPerm is src enumerated the other way round, later overwrites b. -/
theorem claim_C3_merge_overwrite_witness :
    valuesGet (mergeURLValues (some [("a", ["1"]), ("b", ["2"])])
          (some [("b", ["3"]), ("c", ["4"])])) "b"
        = (if hasKeyB [("b", ["3"]), ("c", ["4"])] "b"
           then getVals [("b", ["3"]), ("c", ["4"])] "b"
           else getVals [("a", ["1"]), ("b", ["2"])] "b")
    ∧ valuesGet (mergeURLValues (some [("a", ["1"]), ("b", ["2"])])
          (some [("c", ["4"]), ("b", ["3"])])) "b"
        = valuesGet (mergeURLValues (some [("a", ["1"]), ("b", ["2"])])
          (some [("b", ["3"]), ("c", ["4"])])) "b"
    ∧ valuesGet (mergeURLValues (mergeURLValues (some [("a", ["1"]), ("b", ["2"])])
          (some [("b", ["3"]), ("c", ["4"])])) (some [("b", ["9"])])) "b"
        = (if hasKeyB [("b", ["9"])] "b" then getVals [("b", ["9"])] "b"
           else if hasKeyB [("b", ["3"]), ("c", ["4"])] "b"
           then getVals [("b", ["3"]), ("c", ["4"])] "b"
           else getVals [("a", ["1"]), ("b", ["2"])] "b") :=
  claim_C3_merge_overwrite [("a", ["1"]), ("b", ["2"])] [("b", ["3"]), ("c", ["4"])]
    [("c", ["4"]), ("b", ["3"])] [("b", ["9"])] "b"
    (by decide) (by decide) (by decide)

/-- Claim C8: mergeURLValues is total (no runtime fault) and is a no-op
whenever either map is nil: dst is left unchanged. -/
theorem claim_C8_merge_nil_noop (dst src : Values) :
    mergeURLValues none src = none ∧ mergeURLValues dst none = dst := by
  constructor
  · rfl
  · cases dst with
    | none => rfl
    | some d => rfl

/-- Claim C9: when Config.Database is empty, the container DSN and the main
DSN are equal as strings, for every extra parameter set. -/
theorem claim_C9_empty_database_same (c : Config) (extra : Values)
    (h : c.Database = "") :
    embeddedInitDSN (some c) extra = embeddedDBDSN (some c) extra := by
  unfold embeddedInitDSN embeddedDBDSN embeddedInitParams embeddedDBParams
  simp [h]

theorem claim_C9_empty_database_same_witness :
    embeddedInitDSN (some ⟨"/d", "n", "e", ""⟩) embeddedDefaultOpenParams
      = embeddedDBDSN (some ⟨"/d", "n", "e", ""⟩) embeddedDefaultOpenParams :=
  claim_C9_empty_database_same ⟨"/d", "n", "e", ""⟩ embeddedDefaultOpenParams rfl

/-- Claim C5: the default retry parameter set is exactly the literal set
enabled (retry) = true, max elapsed (retrytimeout) = 2s, max tries
(retrymaxattempts) = 200, initial delay (retryinitialdelay) = 10ms and max
delay (retrymaxdelay) = 100ms, and nothing else (five keys in total). -/
theorem claim_C5_default_retry_values :
    valuesGet embeddedDefaultRetryParams "retry" = some ["true"]
    ∧ valuesGet embeddedDefaultRetryParams "retrytimeout" = some ["2s"]
    ∧ valuesGet embeddedDefaultRetryParams "retrymaxattempts" = some ["200"]
    ∧ valuesGet embeddedDefaultRetryParams "retryinitialdelay" = some ["10ms"]
    ∧ valuesGet embeddedDefaultRetryParams "retrymaxdelay" = some ["100ms"]
    ∧ valuesLen embeddedDefaultRetryParams = 5 := by
  decide

/-! Lemmas about the parameter sets of the two descriptors. -/

/-- Merging extras that lack a key leaves that key's lookup unchanged. -/
theorem valuesGet_merge_absent (d : ValuesList) (extra : Values) (k : String)
    (hx : valuesHasKey extra k = false) :
    valuesGet (mergeURLValues (some d) extra) k = getVals d k := by
  cases extra with
  | none => rfl
  | some s => exact getVals_foldl_not_mem s d k hx

theorem embeddedBaseParams_isSome (cfg : Option Config) :
    ∃ bl, embeddedBaseParams cfg = some bl := by
  cases cfg with
  | none => exact ⟨[], rfl⟩
  | some c =>
      unfold embeddedBaseParams
      exact ⟨_, rfl⟩

theorem baseParams_get_commitname (c : Config) :
    valuesGet (embeddedBaseParams (some c)) "commitname"
      = if c.CommitterName ≠ "" then some [c.CommitterName] else none := by
  have hA : ("commitname" : String) ≠ "commitemail" := by decide
  by_cases hn : c.CommitterName ≠ "" <;> by_cases he : c.CommitterEmail ≠ "" <;>
    simp [embeddedBaseParams, setOne, setKey, getVals, valuesGet, hn, he, hA, Ne.symm hA]

theorem baseParams_get_commitemail (c : Config) :
    valuesGet (embeddedBaseParams (some c)) "commitemail"
      = if c.CommitterEmail ≠ "" then some [c.CommitterEmail] else none := by
  have hA : ("commitname" : String) ≠ "commitemail" := by decide
  by_cases hn : c.CommitterName ≠ "" <;> by_cases he : c.CommitterEmail ≠ "" <;>
    simp [embeddedBaseParams, setOne, setKey, getVals, valuesGet, hn, he, hA, Ne.symm hA]

theorem baseParams_get_other (c : Config) (k : String)
    (h1 : k ≠ "commitname") (h2 : k ≠ "commitemail") :
    valuesGet (embeddedBaseParams (some c)) k = none := by
  by_cases hn : c.CommitterName ≠ "" <;> by_cases he : c.CommitterEmail ≠ "" <;>
    simp [embeddedBaseParams, setOne, setKey, getVals, valuesGet, hn, he,
      Ne.symm h1, Ne.symm h2]

/-- The init parameter set looks keys up in the base parameters whenever
the extras do not carry them. -/
theorem initParams_get (cfg : Option Config) (extra : Values) (k : String)
    (hx : valuesHasKey extra k = false) :
    valuesGet (embeddedInitParams cfg extra) k = valuesGet (embeddedBaseParams cfg) k := by
  obtain ⟨bl, hbl⟩ := embeddedBaseParams_isSome cfg
  unfold embeddedInitParams
  rw [hbl, valuesGet_merge_absent bl extra k hx]
  rfl

theorem dbParams_get_database_nonempty (c : Config) (extra : Values)
    (hd : c.Database ≠ "") (hx : valuesHasKey extra "database" = false) :
    valuesGet (embeddedDBParams (some c) extra) "database" = some [c.Database] := by
  obtain ⟨bl, hbl⟩ := embeddedBaseParams_isSome (some c)
  simp only [embeddedDBParams]
  rw [if_pos hd, hbl]
  simp only [valuesSet, setOne]
  rw [valuesGet_merge_absent _ extra _ hx]
  exact getVals_setKey_self bl "database" [c.Database]

theorem dbParams_get_database_empty (c : Config) (extra : Values)
    (hd : c.Database = "") (hx : valuesHasKey extra "database" = false) :
    valuesGet (embeddedDBParams (some c) extra) "database" = none := by
  obtain ⟨bl, hbl⟩ := embeddedBaseParams_isSome (some c)
  simp only [embeddedDBParams]
  rw [if_neg (by simp [hd]), hbl, valuesGet_merge_absent bl extra _ hx]
  have := baseParams_get_other c "database" (by decide) (by decide)
  rw [hbl] at this
  exact this

/-- For keys other than the database selector, the main parameter set also
looks up in the base parameters (when the extras lack the key). -/
theorem dbParams_get_other (c : Config) (extra : Values) (k : String)
    (hk : k ≠ "database") (hx : valuesHasKey extra k = false) :
    valuesGet (embeddedDBParams (some c) extra) k
      = valuesGet (embeddedBaseParams (some c)) k := by
  obtain ⟨bl, hbl⟩ := embeddedBaseParams_isSome (some c)
  simp only [embeddedDBParams]
  by_cases hd : c.Database ≠ ""
  · rw [if_pos hd, hbl]
    simp only [valuesSet, setOne]
    rw [valuesGet_merge_absent _ extra k hx,
        getVals_setKey_other bl "database" k [c.Database] hk]
    rfl
  · rw [if_neg hd, hbl, valuesGet_merge_absent bl extra k hx]
    rfl

/-- Claim C4 as stated is false: the extras are merged into both parameter
sets unconditionally, so a caller-supplied extra set carrying the database
key puts a database selector into the container descriptor. -/
theorem claim_C4_counterexample :
    embeddedInitDSN (some ⟨"/d", "", "", ""⟩) (some [("database", ["x"])])
        = some "file:///d?database=x"
    ∧ valuesHasKey (embeddedInitParams (some ⟨"/d", "", "", ""⟩)
        (some [("database", ["x"])])) "database" = true := by
  constructor
  · decide
  · decide

/-- Claim C4 (amended): for every Config and every caller-supplied extra
parameter set that does not itself carry the database key, the container
parameter set never includes the database key, and the main parameter set
includes it exactly when Config.Database is non-empty, with exactly the
configured value. -/
theorem claim_C4_database_selection (c : Config) (extra : Values)
    (hx : valuesHasKey extra "database" = false) :
    valuesHasKey (embeddedInitParams (some c) extra) "database" = false
    ∧ (c.Database ≠ "" →
        valuesGet (embeddedDBParams (some c) extra) "database" = some [c.Database])
    ∧ (c.Database = "" →
        valuesHasKey (embeddedDBParams (some c) extra) "database" = false) := by
  refine ⟨?_, ?_, ?_⟩
  · unfold valuesHasKey
    rw [initParams_get (some c) extra "database" hx,
        baseParams_get_other c "database" (by decide) (by decide)]
    rfl
  · intro hd
    exact dbParams_get_database_nonempty c extra hd hx
  · intro hd
    unfold valuesHasKey
    rw [dbParams_get_database_empty c extra hd hx]
    rfl

theorem claim_C4_database_selection_witness :
    valuesHasKey (embeddedInitParams (some ⟨"/p", "n", "e", "mydb"⟩)
        embeddedDefaultOpenParams) "database" = false
    ∧ (("mydb" : String) ≠ "" →
        valuesGet (embeddedDBParams (some ⟨"/p", "n", "e", "mydb"⟩)
          embeddedDefaultOpenParams) "database" = some ["mydb"])
    ∧ (("mydb" : String) = "" →
        valuesHasKey (embeddedDBParams (some ⟨"/p", "n", "e", "mydb"⟩)
          embeddedDefaultOpenParams) "database" = false) :=
  claim_C4_database_selection ⟨"/p", "n", "e", "mydb"⟩ embeddedDefaultOpenParams (by decide)

/-- Claim C7: a non-empty CommitterName and CommitterEmail appear
identically, as the commitname and commitemail parameters, in the container
parameter set and in the main parameter set (for extras that do not
themselves override the identity keys, as the repository's own extras do
not). -/
theorem claim_C7_identity_propagation (c : Config) (extra : Values)
    (hn : c.CommitterName ≠ "") (he : c.CommitterEmail ≠ "")
    (h1 : valuesHasKey extra "commitname" = false)
    (h2 : valuesHasKey extra "commitemail" = false) :
    valuesGet (embeddedInitParams (some c) extra) "commitname" = some [c.CommitterName]
    ∧ valuesGet (embeddedDBParams (some c) extra) "commitname" = some [c.CommitterName]
    ∧ valuesGet (embeddedInitParams (some c) extra) "commitemail" = some [c.CommitterEmail]
    ∧ valuesGet (embeddedDBParams (some c) extra) "commitemail" = some [c.CommitterEmail] := by
  have hcn := baseParams_get_commitname c
  rw [if_pos hn] at hcn
  have hce := baseParams_get_commitemail c
  rw [if_pos he] at hce
  refine ⟨?_, ?_, ?_, ?_⟩
  · rw [initParams_get (some c) extra _ h1]
    exact hcn
  · rw [dbParams_get_other c extra _ (by decide) h1]
    exact hcn
  · rw [initParams_get (some c) extra _ h2]
    exact hce
  · rw [dbParams_get_other c extra _ (by decide) h2]
    exact hce

theorem claim_C7_identity_propagation_witness :
    valuesGet (embeddedInitParams (some ⟨"/tmp/beads dolt dbs", "Alice Example",
        "alice+beads@example.com", "beads"⟩) embeddedDefaultOpenParams) "commitname"
      = some ["Alice Example"]
    ∧ valuesGet (embeddedDBParams (some ⟨"/tmp/beads dolt dbs", "Alice Example",
        "alice+beads@example.com", "beads"⟩) embeddedDefaultOpenParams) "commitname"
      = some ["Alice Example"]
    ∧ valuesGet (embeddedInitParams (some ⟨"/tmp/beads dolt dbs", "Alice Example",
        "alice+beads@example.com", "beads"⟩) embeddedDefaultOpenParams) "commitemail"
      = some ["alice+beads@example.com"]
    ∧ valuesGet (embeddedDBParams (some ⟨"/tmp/beads dolt dbs", "Alice Example",
        "alice+beads@example.com", "beads"⟩) embeddedDefaultOpenParams) "commitemail"
      = some ["alice+beads@example.com"] :=
  claim_C7_identity_propagation
    ⟨"/tmp/beads dolt dbs", "Alice Example", "alice+beads@example.com", "beads"⟩
    embeddedDefaultOpenParams (by decide) (by decide) (by decide) (by decide)

/-- Claim C10: an empty CommitterName (respectively CommitterEmail) leaves
the commitname (respectively commitemail) key out of both parameter sets
entirely, rather than adding it with an empty value; a nil Config yields
the empty base parameter set, so neither identity key appears (the DSN
builders then fault on the nil Path dereference before producing a string).
Extras are assumed not to inject the identity keys themselves. -/
theorem claim_C10_empty_identity_omitted (c : Config) (extra : Values)
    (h1 : valuesHasKey extra "commitname" = false)
    (h2 : valuesHasKey extra "commitemail" = false) :
    (c.CommitterName = "" →
        valuesHasKey (embeddedInitParams (some c) extra) "commitname" = false
        ∧ valuesHasKey (embeddedDBParams (some c) extra) "commitname" = false)
    ∧ (c.CommitterEmail = "" →
        valuesHasKey (embeddedInitParams (some c) extra) "commitemail" = false
        ∧ valuesHasKey (embeddedDBParams (some c) extra) "commitemail" = false)
    ∧ embeddedBaseParams none = some []
    ∧ valuesHasKey (embeddedInitParams none extra) "commitname" = false
    ∧ valuesHasKey (embeddedInitParams none extra) "commitemail" = false := by
  refine ⟨?_, ?_, rfl, ?_, ?_⟩
  · intro hn
    have hcn := baseParams_get_commitname c
    rw [if_neg (by simp [hn])] at hcn
    constructor
    · unfold valuesHasKey
      rw [initParams_get (some c) extra _ h1, hcn]
      rfl
    · unfold valuesHasKey
      rw [dbParams_get_other c extra _ (by decide) h1, hcn]
      rfl
  · intro he
    have hce := baseParams_get_commitemail c
    rw [if_neg (by simp [he])] at hce
    constructor
    · unfold valuesHasKey
      rw [initParams_get (some c) extra _ h2, hce]
      rfl
    · unfold valuesHasKey
      rw [dbParams_get_other c extra _ (by decide) h2, hce]
      rfl
  · unfold valuesHasKey
    rw [initParams_get none extra _ h1]
    rfl
  · unfold valuesHasKey
    rw [initParams_get none extra _ h2]
    rfl

theorem claim_C10_empty_identity_omitted_witness :
    (("" : String) = "" →
        valuesHasKey (embeddedInitParams (some ⟨"/p", "", "", ""⟩)
          embeddedDefaultOpenParams) "commitname" = false
        ∧ valuesHasKey (embeddedDBParams (some ⟨"/p", "", "", ""⟩)
          embeddedDefaultOpenParams) "commitname" = false)
    ∧ (("" : String) = "" →
        valuesHasKey (embeddedInitParams (some ⟨"/p", "", "", ""⟩)
          embeddedDefaultOpenParams) "commitemail" = false
        ∧ valuesHasKey (embeddedDBParams (some ⟨"/p", "", "", ""⟩)
          embeddedDefaultOpenParams) "commitemail" = false)
    ∧ embeddedBaseParams none = some []
    ∧ valuesHasKey (embeddedInitParams none embeddedDefaultOpenParams) "commitname" = false
    ∧ valuesHasKey (embeddedInitParams none embeddedDefaultOpenParams) "commitemail" = false :=
  claim_C10_empty_identity_omitted ⟨"/p", "", "", ""⟩ embeddedDefaultOpenParams
    (by decide) (by decide)

/-! String-level lemmas for the directory-segment round trip. -/

theorem data_append (s t : String) : (s ++ t).data = s.data ++ t.data := by
  cases s
  cases t
  rfl

theorem takeWhile_all_neq (l : List Char) (h : ∀ c ∈ l, (c != '?') = true) :
    l.takeWhile (fun c => c != '?') = l := by
  induction l with
  | nil => rfl
  | cons a t ih =>
      have ha := h a (by simp)
      simp [List.takeWhile_cons, ha, ih (fun c hc => h c (by simp [hc]))]

theorem takeWhile_append_qmark (l1 l2 : List Char) (h : ∀ c ∈ l1, (c != '?') = true) :
    (l1 ++ '?' :: l2).takeWhile (fun c => c != '?') = l1 := by
  induction l1 with
  | nil => simp [List.takeWhile_cons]
  | cons a t ih =>
      have ha := h a (by simp)
      simp [List.cons_append, List.takeWhile_cons, ha,
        ih (fun c hc => h c (by simp [hc]))]

set_option maxRecDepth 4096 in
theorem qmark_not_in_queryEscapeByteChars :
    ∀ b ∈ List.range 256, '?' ∉ queryEscapeByteChars b := by
  decide

theorem char_toNat_lt (c : Char) : c.toNat < 1114112 := by
  rcases c.valid with h | h
  · exact Nat.lt_trans h (by decide)
  · exact h.2

theorem utf8Bytes_lt_256 (c : Char) : ∀ b ∈ utf8Bytes c, b < 256 := by
  intro b hb
  simp only [utf8Bytes] at hb
  by_cases h1 : c.toNat < 128
  · simp [h1] at hb
    omega
  · by_cases h2 : c.toNat < 2048
    · simp [h1, h2] at hb
      rcases hb with rfl | rfl <;> omega
    · by_cases h3 : c.toNat < 65536
      · simp [h1, h2, h3] at hb
        rcases hb with rfl | rfl | rfl <;> omega
      · have hc := char_toNat_lt c
        simp [h1, h2, h3] at hb
        rcases hb with rfl | rfl | rfl | rfl <;> omega

theorem qmark_not_in_queryEscape (s : String) : '?' ∉ (queryEscape s).data := by
  intro hmem
  have hflat : '?' ∈ (stringBytes s).flatMap queryEscapeByteChars := hmem
  rw [List.mem_flatMap] at hflat
  obtain ⟨b, hbmem, hbq⟩ := hflat
  have hb : b < 256 := by
    have hbm : b ∈ s.data.flatMap utf8Bytes := hbmem
    rw [List.mem_flatMap] at hbm
    obtain ⟨c, _, hcb⟩ := hbm
    exact utf8Bytes_lt_256 c b hcb
  exact qmark_not_in_queryEscapeByteChars b (List.mem_range.mpr hb) hbq

theorem qmark_not_in_encodedPair (k v : String) : '?' ∉ (encodedPair k v).data := by
  unfold encodedPair
  rw [data_append, data_append]
  intro h
  rcases List.mem_append.mp h with h | h
  · rcases List.mem_append.mp h with h | h
    · exact qmark_not_in_queryEscape k h
    · rw [show ("=" : String).data = ['='] from rfl] at h
      exact absurd h (by decide)
  · exact qmark_not_in_queryEscape v h

theorem qmark_not_in_joinAmp (parts : List String)
    (h : ∀ p ∈ parts, '?' ∉ p.data) : '?' ∉ (joinAmp parts).data := by
  induction parts with
  | nil => decide
  | cons s rest ih =>
      cases rest with
      | nil => exact h s (by simp)
      | cons s2 rest2 =>
          intro hmem
          rw [show joinAmp (s :: s2 :: rest2) = s ++ "&" ++ joinAmp (s2 :: rest2)
            from rfl] at hmem
          rw [data_append, data_append] at hmem
          rcases List.mem_append.mp hmem with hm | hm
          · rcases List.mem_append.mp hm with hm | hm
            · exact h s (by simp) hm
            · rw [show ("&" : String).data = ['&'] from rfl] at hm
              exact absurd hm (by decide)
          · exact ih (fun p hp => h p (by simp [hp])) hm

/-- The encoded query of any parameter set contains no '?' character: the
question mark appended by the builder is the first (and only unescaped)
one after the directory. -/
theorem qmark_not_in_valuesEncode (v : Values) : '?' ∉ (valuesEncode v).data := by
  cases v with
  | none => decide
  | some l =>
      unfold valuesEncode
      apply qmark_not_in_joinAmp
      intro p hp
      rw [List.mem_flatMap] at hp
      obtain ⟨kv, _, hkv⟩ := hp
      rw [List.mem_map] at hkv
      obtain ⟨val, _, rfl⟩ := hkv
      exact qmark_not_in_encodedPair kv.1 val

/-- The directory segment of a built DSN recovers the directory, provided
the directory contains no '?' and does not itself start with the scheme
prefix. -/
theorem dirSegment_build (dir : String) (params : Values)
    (hq : '?' ∉ dir.data) (hp : strHasPre "file://" dir = false) :
    dirSegment (buildEmbeddedDSN dir params) = dir := by
  have hdirall : ∀ c ∈ dir.data, (c != '?') = true := by
    intro c hc
    rw [bne_iff_ne]
    intro hh
    exact hq (hh ▸ hc)
  have hbase : (if strHasPre "file://" dir then dir else "file://" ++ dir)
      = "file://" ++ dir := by
    rw [hp]
    rfl
  simp only [buildEmbeddedDSN, hbase]
  by_cases hlen : valuesLen params = 0
  · rw [if_pos hlen]
    unfold dirSegment
    rw [data_append,
        show ("file://" : String).length = ("file://" : String).data.length from rfl,
        List.drop_left, takeWhile_all_neq dir.data hdirall]
  · rw [if_neg hlen]
    unfold dirSegment
    rw [data_append, data_append, data_append,
        show ("?" : String).data = ['?'] from rfl,
        List.append_assoc, List.append_assoc,
        show ("file://" : String).length = ("file://" : String).data.length from rfl,
        List.drop_left,
        show ∀ l : List Char, ['?'] ++ l = '?' :: l from fun l => rfl,
        takeWhile_append_qmark dir.data _ hdirall]

/-- Claim C1 as stated is false at Paths containing reserved characters:
a '?' inside the Path truncates the directory segment, and a Path already
carrying the scheme prefix is not reproduced whole either. -/
theorem claim_C1_counterexample :
    (embeddedInitDSN (some ⟨"/tmp/a?b", "", "", ""⟩) (some [])).map dirSegment
        = some "/tmp/a"
    ∧ "/tmp/a" ≠ "/tmp/a?b"
    ∧ (embeddedInitDSN (some ⟨"file:///x", "", "", ""⟩) (some [])).map dirSegment
        = some "/x"
    ∧ "/x" ≠ "file:///x" :=
  ⟨by decide, by decide, by decide, by decide⟩

/-- Claim C1 (amended): for every configured Path that contains no '?' and
does not itself start with the scheme prefix, and every parameter set, the
directory segment of both built descriptors — the text between the scheme
prefix and the first unescaped '?' — is byte-identical to the Path and is
never percent-encoded; only the query part is URL-encoded, and it contains
no unescaped '?' of its own. -/
theorem claim_C1_directory_roundtrip (c : Config) (extra : Values)
    (hq : '?' ∉ c.Path.data) (hp : strHasPre "file://" c.Path = false) :
    (embeddedInitDSN (some c) extra).map dirSegment = some c.Path
    ∧ (embeddedDBDSN (some c) extra).map dirSegment = some c.Path
    ∧ '?' ∉ (valuesEncode (embeddedInitParams (some c) extra)).data
    ∧ '?' ∉ (valuesEncode (embeddedDBParams (some c) extra)).data := by
  refine ⟨?_, ?_, qmark_not_in_valuesEncode _, qmark_not_in_valuesEncode _⟩
  · show some (dirSegment (buildEmbeddedDSN c.Path (embeddedInitParams (some c) extra)))
        = some c.Path
    rw [dirSegment_build c.Path _ hq hp]
  · show some (dirSegment (buildEmbeddedDSN c.Path (embeddedDBParams (some c) extra)))
        = some c.Path
    rw [dirSegment_build c.Path _ hq hp]

theorem claim_C1_directory_roundtrip_witness :
    (embeddedInitDSN (some ⟨"/tmp/beads dolt dbs", "Alice Example",
        "alice+beads@example.com", "beads"⟩) embeddedDefaultOpenParams).map dirSegment
      = some "/tmp/beads dolt dbs"
    ∧ (embeddedDBDSN (some ⟨"/tmp/beads dolt dbs", "Alice Example",
        "alice+beads@example.com", "beads"⟩) embeddedDefaultOpenParams).map dirSegment
      = some "/tmp/beads dolt dbs"
    ∧ '?' ∉ (valuesEncode (embeddedInitParams (some ⟨"/tmp/beads dolt dbs",
        "Alice Example", "alice+beads@example.com", "beads"⟩)
        embeddedDefaultOpenParams)).data
    ∧ '?' ∉ (valuesEncode (embeddedDBParams (some ⟨"/tmp/beads dolt dbs",
        "Alice Example", "alice+beads@example.com", "beads"⟩)
        embeddedDefaultOpenParams)).data :=
  claim_C1_directory_roundtrip
    ⟨"/tmp/beads dolt dbs", "Alice Example", "alice+beads@example.com", "beads"⟩
    embeddedDefaultOpenParams (by decide) (by decide)

/-- Claim C6: buildEmbeddedDSN implements exactly the spec's encoding rule:
prepend the canonical scheme prefix exactly when the directory lacks it;
an empty (or nil) final parameter set yields the prefixed directory alone;
otherwise the prefixed directory, a '?', and the standard key=value
encoding follow, with the directory segment untouched. -/
theorem claim_C6_encoding_rule (dir : String) (params : Values) :
    buildEmbeddedDSN dir params = buildDSNSpecRule dir params := by
  cases params with
  | none => rfl
  | some l =>
      cases l with
      | nil => rfl
      | cons p rest => simp [buildEmbeddedDSN, buildDSNSpecRule, valuesLen]

end BeadsDolt
